import Mathlib

/-!
# Watchables core: a shallow embedding

This file embeds the core of the watchables prototype (a reactive value
graph) and proves properties of it:

* `ListenerManager` (src/unnamed/part_010) and `PlainField`
  (src/src/PlainField.ts): the two-phase dirty/change notification registry
  and the settable field built on it.
* `Mutator` (src/unnamed/part_003): the two-stage perform/signal write.
* the inner equality of `Field` (src/src/Field.ts).
* `Signal` (the class embedded in src/src/_tests/Throttled.test.ts).
* `Throttled.whenDirty` (src/src/Throttled.ts).
* `Derived` (src/unnamed/part_009) composed with plain fields.

Listener sets are weakly-held sets of callbacks in the source; here the
act of iterating a listener set (i.e. the broadcasts a subscriber would
observe) is recorded as an explicit event, and the subscription state of
the one modelled subscriber (a derived value) is kept as booleans.
-/

namespace Watchables

/-- Events observable while field operations run: a dirty-listener broadcast
(the listener loop in `ListenerManager.callDirtyListeners` actually running),
a change-listener broadcast (`ListenerManager.callChangeListeners`), and an
assignment to the stored value (`this.value = value` in the perform phase of
`PlainField.set`). -/
inductive WEvent where
  | dirtyBroadcast
  | changeBroadcast
  | assign
deriving DecidableEq, Repr

/-- The error raised by `ListenerManager.checkNotDispatchingDirty`. -/
inductive WErr where
  | readDuringDirtyDispatch
deriving DecidableEq, Repr

/-- The state of a `PlainField`: its `value` plus the state bits it inherits
from `ListenerManager` (`dirty`, `signaled`, `callingDirtyListeners`).  The
initial values mirror the source: `dirty = true`, `signaled = false`.
The registered listeners themselves are abstracted: a broadcast that reaches
the listener loop is recorded as a `WEvent`. -/
structure FieldState (α : Type) where
  value : α
  dirty : Bool := true
  signaled : Bool := false
  callingDirtyListeners : Bool := false

/-- Source `ListenerManager.callDirtyListeners`: a no-op when `dirty` is already set;
otherwise sets `dirty`, clears `signaled`, and runs the dirty listener loop
(with `callingDirtyListeners` set for its duration). -/
def callDirtyListeners (s : FieldState α) : FieldState α × List WEvent :=
  if s.dirty then (s, [])
  else
    let s1 : FieldState α :=
      { s with dirty := true, signaled := false, callingDirtyListeners := true }
    ({ s1 with callingDirtyListeners := false }, [WEvent.dirtyBroadcast])

/-- Source `ListenerManager.callChangeListeners`: a no-op when `signaled` is already
set; otherwise sets `signaled` and runs the change listener loop. -/
def callChangeListeners (s : FieldState α) : FieldState α × List WEvent :=
  if s.signaled then (s, [])
  else ({ s with signaled := true }, [WEvent.changeBroadcast])

/-- Source `PlainField.get`: `checkNotDispatchingDirty()` (throwing when the field's
own registry is mid dirty-dispatch), then clear `dirty` and return the
value. -/
def fieldGet (s : FieldState α) : Except WErr (α × FieldState α) :=
  if s.callingDirtyListeners then Except.error WErr.readDuringDirtyDispatch
  else Except.ok (s.value, { s with dirty := false })

/-- The value a successful `PlainField.get` returns (`none` when it throws). -/
def fieldGetValue (s : FieldState α) : Option α :=
  match fieldGet s with
  | Except.ok (v, _) => some v
  | Except.error _ => none

/-- The perform phase of the mutator returned by `PlainField.set(value)`:
if `equals(this.value, value)` it does nothing, otherwise it calls the dirty
listeners and then assigns the new value. -/
def setPerform (equals : α → α → Bool) (v : α) (s : FieldState α) :
    FieldState α × List WEvent :=
  if equals s.value v then (s, [])
  else
    let r := callDirtyListeners s
    ({ r.1 with value := v }, r.2 ++ [WEvent.assign])

/-- The signal phase of the mutator returned by `PlainField.set(value)`:
`this.callChangeListeners()`. -/
def setSignal (s : FieldState α) : FieldState α × List WEvent :=
  callChangeListeners s

/-- Source `field.set(v).commit()`: the mutator's perform phase followed by its
signal phase (`Mutator.commit` runs them in that order). -/
def commitSet (equals : α → α → Bool) (v : α) (s : FieldState α) :
    FieldState α × List WEvent :=
  let r1 := setPerform equals v s
  let r2 := setSignal r1.1
  (r2.1, r1.2 ++ r2.2)

/-- A sequence of `field.set(v).commit()` calls, collecting all events. -/
def runCommits (equals : α → α → Bool) : List α → FieldState α → FieldState α × List WEvent
  | [], s => (s, [])
  | v :: rest, s =>
      let r1 := commitSet equals v s
      let r2 := runCommits equals rest r1.1
      (r2.1, r1.2 ++ r2.2)

/-! ## Inner equality of `Field` (src/src/Field.ts)

`Field<T>` stores `{plain: T} | {watchable: IWatchable<T>}` in an inner
`PlainField` whose equality function is
`(o, n) => (o.watchable && o.watchable == n.watchable) ||
("plain" in o && "plain" in n && equalsCheck(o.plain, n.plain))`.
Source watchables are compared by JavaScript reference equality; here each
distinct watchable object is identified by a natural number, so reference
equality becomes equality of identifiers.  `Field.set(v)` commits
`{plain: v}` and `Field.setSource(w)` commits `{watchable: w}` to the inner
field. -/
inductive IFieldValue (α : Type) where
  | plain (v : α)
  | watchable (s : ℕ)
deriving DecidableEq

/-- The first disjunct `oldVal.watchable && oldVal.watchable == newVal.watchable`
of the inner equality: `o.watchable` is `undefined` (falsy) when `o` is plain,
and `o.watchable == n.watchable` compares object references, which is false
when `n` has no `watchable` member (an object is never loosely equal to
`undefined`). -/
def innerEqualsSource : IFieldValue α → IFieldValue α → Bool
  | IFieldValue.watchable w, IFieldValue.watchable w2 => w == w2
  | _, _ => false

/-- The second disjunct
`"plain" in oldVal && "plain" in newVal && equalsCheck(oldVal.plain, newVal.plain)`
of the inner equality. -/
def innerEqualsPlain (equalsCheck : α → α → Bool) :
    IFieldValue α → IFieldValue α → Bool
  | IFieldValue.plain a, IFieldValue.plain b => equalsCheck a b
  | _, _ => false

/-- The equality function `Field` passes to its inner `PlainField`. -/
def innerEquals (equalsCheck : α → α → Bool) (o n : IFieldValue α) : Bool :=
  innerEqualsSource o n || innerEqualsPlain equalsCheck o n

/-! ## Theorems about `PlainField` commits -/

/-- Full description of one `set(v).commit()` when the equality check holds:
the perform phase is skipped, and the signal phase fires the change listeners
exactly when `signaled` was clear. -/
theorem commitSet_eq_true (equals : α → α → Bool) (v old : α) (db sb cb : Bool)
    (h : equals old v = true) :
    commitSet equals v ⟨old, db, sb, cb⟩ =
      (⟨old, db, true, cb⟩, if sb then [] else [WEvent.changeBroadcast]) := by
  cases sb <;> simp [commitSet, setPerform, setSignal, callChangeListeners, h]

/-- Full description of one `set(v).commit()` when the equality check fails:
the dirty broadcast fires exactly when `dirty` was clear (it is suppressed by
the guard otherwise), the value is assigned, and the change broadcast fires
unless `signaled` was still set after the perform phase (possible only when
the dirty broadcast was suppressed). -/
theorem commitSet_eq_false (equals : α → α → Bool) (v old : α) (db sb cb : Bool)
    (h : equals old v = false) :
    commitSet equals v ⟨old, db, sb, cb⟩ =
      (⟨v, true, true, if db then cb else false⟩,
       (if db then [WEvent.assign] else [WEvent.dirtyBroadcast, WEvent.assign]) ++
         (if db && sb then [] else [WEvent.changeBroadcast])) := by
  cases db <;> cases sb <;>
    simp [commitSet, setPerform, setSignal, callDirtyListeners,
      callChangeListeners, h]

/-- Bounds on broadcasts emitted by any sequence of commits, parametrised by
the starting registry flags: the dirty-guard means at most one dirty broadcast
can fire before the next read clears `dirty`, and since only a firing dirty
broadcast clears `signaled`, change broadcasts are bounded by one more than
the dirty broadcasts fired. -/
theorem runCommits_event_bounds (equals : α → α → Bool) (l : List α)
    (s : FieldState α) :
    (runCommits equals l s).2.count WEvent.dirtyBroadcast ≤
      (if s.dirty then 0 else 1) ∧
    (runCommits equals l s).2.count WEvent.changeBroadcast ≤
      (if s.signaled then 0 else 1) + (if s.dirty then 0 else 1) := by
  induction l generalizing s with
  | nil => simp [runCommits]
  | cons v rest ih =>
      rcases s with ⟨old, db, sb, cb⟩
      cases h : equals old v
      · have hc := commitSet_eq_false equals v old db sb cb h
        have H := ih ⟨v, true, true, if db then cb else false⟩
        rw [runCommits, hc]
        cases db <;> cases sb <;> simp_all [List.count_append]
      · have hc := commitSet_eq_true equals v old db sb cb h
        have H := ih ⟨old, db, true, cb⟩
        rw [runCommits, hc]
        cases db <;> cases sb <;> simp_all [List.count_append]

/-- The change broadcasts of a commit sequence are bounded by one more than
its dirty broadcasts: each change broadcast sets `signaled`, and only a
firing dirty broadcast clears it again. -/
theorem runCommits_change_le_dirty (equals : α → α → Bool) (l : List α)
    (s : FieldState α) :
    (runCommits equals l s).2.count WEvent.changeBroadcast ≤
      (if s.signaled then 0 else 1) +
        (runCommits equals l s).2.count WEvent.dirtyBroadcast := by
  induction l generalizing s with
  | nil => simp [runCommits]
  | cons v rest ih =>
      rcases s with ⟨old, db, sb, cb⟩
      cases h : equals old v
      · have hc := commitSet_eq_false equals v old db sb cb h
        have H := ih ⟨v, true, true, if db then cb else false⟩
        rw [runCommits, hc]
        cases db <;> cases sb <;> simp_all [List.count_append] <;> omega
      · have hc := commitSet_eq_true equals v old db sb cb h
        have H := ih ⟨old, db, true, cb⟩
        rw [runCommits, hc]
        cases db <;> cases sb <;> simp_all [List.count_append] <;> omega

/-- Claim C2 counterexample: on a freshly constructed `PlainField(0)` (whose
registry starts with `dirty = true`, `signaled = false`), committing
`set(0)` has the equality check hold at commit time, yet the commit's signal
phase fires the change listeners (the `signaled` guard is still clear), so
"no listener fired" is false at this input. -/
theorem equal_set_commit_fires_change_on_fresh_field :
    ((0 : Int) == 0) = true ∧
    ((commitSet (fun a b : Int => a == b) 0 ⟨0, true, false, false⟩).2).count
        WEvent.changeBroadcast = 1 := by
  decide

/-- Claim C2 (amended): `f.set(x).commit()` followed by `f.get()` yields `x`,
unless `equals(old, x)` held at commit time, in which case it yields the old
value; in the equality case no assignment and no dirty broadcast happen, but
the change listeners are only guaranteed not to fire when the registry's
`signaled` bit was already set (a change broadcast had happened since the
last dirty broadcast); when `signaled` was clear, the signal phase still
fires the change listeners.  Stated for an arbitrary pre-commit registry
state `⟨old, db, sb, false⟩` (a field outside any dirty dispatch). -/
theorem field_set_commit_roundtrip (equals : α → α → Bool) (old v : α)
    (db sb : Bool) :
    fieldGetValue (commitSet equals v ⟨old, db, sb, false⟩).1 =
      some (if equals old v then old else v) ∧
    (commitSet equals v ⟨old, db, sb, false⟩).2.count WEvent.assign =
      (if equals old v then 0 else 1) ∧
    (commitSet equals v ⟨old, db, sb, false⟩).2.count WEvent.dirtyBroadcast =
      (if equals old v || db then 0 else 1) ∧
    (commitSet equals v ⟨old, db, sb, false⟩).2.count WEvent.changeBroadcast =
      (if (equals old v || db) && sb then 0 else 1) := by
  cases h : equals old v
  · rw [commitSet_eq_false equals v old db sb false h]
    cases db <;> cases sb <;> simp [fieldGetValue, fieldGet, h]
  · rw [commitSet_eq_true equals v old db sb false h]
    cases db <;> cases sb <;> simp [fieldGetValue, fieldGet, h]

/-- Claim C3 counterexample: starting from a fresh `PlainField(0)` right after
its first `get()` (which leaves `⟨0, false, false, false⟩`), the two commits
`set(0).commit(); set(1).commit()` dispatch TWO change broadcasts before the
next `get()` (which succeeds): the first commit's equality check holds but
its signal phase fires change (the `signaled` bit was clear), and the second
commit's dirty broadcast resets `signaled` so its change fires again.  This
refutes "at most one change notification between two successive reads". -/
theorem two_change_broadcasts_between_reads :
    ((runCommits (fun a b : Int => a == b) [0, 1] ⟨0, false, false, false⟩).2).count
        WEvent.changeBroadcast = 2 ∧
    ((runCommits (fun a b : Int => a == b) [0, 1] ⟨0, false, false, false⟩).2).count
        WEvent.dirtyBroadcast = 1 ∧
    (fieldGetValue (runCommits (fun a b : Int => a == b) [0, 1]
        ⟨0, false, false, false⟩).1).isSome = true := by
  decide

/-- Claim C3 (amended): between two successive `w.get()` calls on a plain
field — i.e. over any sequence of committed sets started in a post-`get`
state (`get` clears `dirty`) — at most one dirty broadcast is dispatched,
and the number of change broadcasts is at most one more than the number of
dirty broadcasts (so at most two; a second change needs the dirty broadcast
between the two changes). -/
theorem at_most_one_dirty_and_change_bounded_between_reads
    (equals : α → α → Bool) (l : List α) (s : FieldState α) :
    (runCommits equals l { s with dirty := false }).2.count WEvent.dirtyBroadcast ≤ 1 ∧
    (runCommits equals l { s with dirty := false }).2.count WEvent.changeBroadcast ≤
      1 + (runCommits equals l { s with dirty := false }).2.count
            WEvent.dirtyBroadcast := by
  constructor
  · have h := runCommits_event_bounds equals l { s with dirty := false }
    simpa using h.1
  · have h := runCommits_change_le_dirty equals l { s with dirty := false }
    have hb : (if ({ s with dirty := false } : FieldState α).signaled then 0 else 1) ≤ 1 := by
      cases s.signaled <;> simp
    omega

/-- The perform phase of `PlainField.set` leaves the field untouched and
emits no event exactly when the field's equality check accepts the new
value. -/
theorem setPerform_noop_iff (equals : α → α → Bool) (v : α) (s : FieldState α) :
    ((setPerform equals v s).2 = [] ∧ (setPerform equals v s).1 = s) ↔
      equals s.value v = true := by
  cases h : equals s.value v <;> simp [setPerform, h]

/-- Claim C6: the inner equality of `Field` makes a `set`/`setSource` mutator's
perform phase a no-op (state untouched: no dirty broadcast, no assignment)
exactly when both old and new inner states are plain values and the caller's
equality check holds, or both are source states holding the same watchable by
reference; a plain state and a source state are never equal.
(`Field.set(v)` commits `IFieldValue.plain v`; `Field.setSource(w)` commits
`IFieldValue.watchable w`.) -/
theorem source_field_inner_equality_characterization (eqc : α → α → Bool)
    (s : FieldState (IFieldValue α)) (nv : IFieldValue α) :
    ((setPerform (innerEquals eqc) nv s).2 = [] ∧
        (setPerform (innerEquals eqc) nv s).1 = s)
      ↔ ((∃ a b, s.value = IFieldValue.plain a ∧ nv = IFieldValue.plain b ∧
            eqc a b = true)
         ∨ (∃ w, s.value = IFieldValue.watchable w ∧
            nv = IFieldValue.watchable w)) := by
  rw [setPerform_noop_iff]
  rcases s with ⟨ov, db, sb, cb⟩
  cases ov <;> cases nv <;>
    simp [innerEquals, innerEqualsSource, innerEqualsPlain]
  exact eq_comm

/-! ## Mutator (src/unnamed/part_003)

`Mutator` wraps a perform callback and a signal callback behind `performed`
and `signaled` flags.  The callbacks are abstracted into events recording
their invocation; a perform callback that throws is modelled by the
`performThrows` parameter. -/

/-- Callback invocations of a mutator: its perform callback and its signal
callback running. -/
inductive MEvent where
  | performCB
  | signalCB
deriving DecidableEq, Repr

/-- Exceptions of `Mutator` methods.  The first three are the ordering
errors the spec groups under `MutationAlreadyConsumed`; `userError` stands
for an exception thrown by the user's perform callback itself. -/
inductive MErr where
  | alreadyPerformed
  | alreadySignaled
  | notPerformed
  | userError
deriving DecidableEq, Repr

/-- Whether a raised error is one of the `MutationAlreadyConsumed` ordering
errors (as opposed to no error, or a user exception passing through). -/
def MErr.isConsumed : Option MErr → Bool
  | some MErr.alreadyPerformed => true
  | some MErr.alreadySignaled => true
  | some MErr.notPerformed => true
  | _ => false

/-- The flags of a `Mutator` instance; both start `undefined` (falsy). -/
structure MutState where
  performed : Bool := false
  signaled : Bool := false
deriving DecidableEq, Repr

/-- Source `Mutator.commit`: throws if `performed`, then if `signaled`; otherwise
sets `performed`, runs the perform callback (whose exception propagates with
the flag already set), then sets `signaled` and runs the signal callback. -/
def Mutator.commit (performThrows : Bool) (s : MutState) :
    MutState × List MEvent × Option MErr :=
  if s.performed then (s, [], some MErr.alreadyPerformed)
  else if s.signaled then (s, [], some MErr.alreadySignaled)
  else
    let s1 : MutState := { s with performed := true }
    if performThrows then (s1, [MEvent.performCB], some MErr.userError)
    else ({ s1 with signaled := true }, [MEvent.performCB, MEvent.signalCB], none)

/-- Source `Mutator.perform`: throws if `performed`; otherwise sets `performed` and
runs the perform callback. -/
def Mutator.perform (performThrows : Bool) (s : MutState) :
    MutState × List MEvent × Option MErr :=
  if s.performed then (s, [], some MErr.alreadyPerformed)
  else
    let s1 : MutState := { s with performed := true }
    if performThrows then (s1, [MEvent.performCB], some MErr.userError)
    else (s1, [MEvent.performCB], none)

/-- Source `Mutator.signal`: throws if not `performed`, then if `signaled`;
otherwise sets `signaled` and runs the signal callback. -/
def Mutator.signal (s : MutState) : MutState × List MEvent × Option MErr :=
  if !s.performed then (s, [], some MErr.notPerformed)
  else if s.signaled then (s, [], some MErr.alreadySignaled)
  else ({ s with signaled := true }, [MEvent.signalCB], none)

/-- An operation a caller may attempt on a mutator. -/
inductive MOp where
  | commit (performThrows : Bool)
  | perform (performThrows : Bool)
  | signal
deriving DecidableEq, Repr

/-- Run a sequence of attempted operations from a given mutator state,
collecting the callback invocations (a thrown error leaves the flags as the
method left them and the caller may keep going). -/
def mrunFrom (s0 : MutState) : List MOp → MutState × List MEvent
  | [] => (s0, [])
  | op :: rest =>
      let r := match op with
        | MOp.commit pt => Mutator.commit pt s0
        | MOp.perform pt => Mutator.perform pt s0
        | MOp.signal => Mutator.signal s0
      let r2 := mrunFrom r.1 rest
      (r2.1, r.2.1 ++ r2.2)

/-- Run a sequence of operations on a freshly constructed mutator. -/
def mrun (ops : List MOp) : MutState × List MEvent :=
  mrunFrom ⟨false, false⟩ ops

/-- The flags track the trace exactly: `performed` is set iff the perform
callback ever ran, `signaled` iff the signal callback ever ran. -/
theorem mrunFrom_flags (ops : List MOp) (s0 : MutState) :
    (mrunFrom s0 ops).1.performed =
      (s0.performed || (mrunFrom s0 ops).2.contains MEvent.performCB) ∧
    (mrunFrom s0 ops).1.signaled =
      (s0.signaled || (mrunFrom s0 ops).2.contains MEvent.signalCB) := by
  induction ops generalizing s0 with
  | nil => simp [mrunFrom]
  | cons op rest ih =>
      rcases s0 with ⟨p, g⟩
      cases op with
      | commit pt =>
          have H := ih (Mutator.commit pt ⟨p, g⟩).1
          cases p <;> cases g <;> cases pt <;>
            simp_all [mrunFrom, Mutator.commit]
      | perform pt =>
          have H := ih (Mutator.perform pt ⟨p, g⟩).1
          cases p <;> cases g <;> cases pt <;>
            simp_all [mrunFrom, Mutator.perform]
      | signal =>
          have H := ih (Mutator.signal ⟨p, g⟩).1
          cases p <;> cases g <;>
            simp_all [mrunFrom, Mutator.signal]

/-- Method `commit` raises an ordering error exactly when `performed` or `signaled`
is set. -/
theorem commit_consumed_eq (pt : Bool) (s : MutState) :
    MErr.isConsumed (Mutator.commit pt s).2.2 = (s.performed || s.signaled) := by
  rcases s with ⟨p, g⟩
  cases p <;> cases g <;> cases pt <;> simp [Mutator.commit, MErr.isConsumed]

/-- Method `perform` raises an ordering error exactly when `performed` is set. -/
theorem perform_consumed_eq (pt : Bool) (s : MutState) :
    MErr.isConsumed (Mutator.perform pt s).2.2 = s.performed := by
  rcases s with ⟨p, g⟩
  cases p <;> cases pt <;> simp [Mutator.perform, MErr.isConsumed]

/-- Method `signal` raises an ordering error exactly when not yet `performed` or
already `signaled`. -/
theorem signal_consumed_eq (s : MutState) :
    MErr.isConsumed (Mutator.signal s).2.2 = (!s.performed || s.signaled) := by
  rcases s with ⟨p, g⟩
  cases p <;> cases g <;> simp [Mutator.signal, MErr.isConsumed]

/-- The callback invocations of one `commit`: nothing when it raises an
ordering error, otherwise the perform callback followed by the signal
callback. -/
theorem commit_events_eq (s : MutState) :
    (Mutator.commit false s).2.1 =
      (if s.performed || s.signaled then ([] : List MEvent)
       else [MEvent.performCB, MEvent.signalCB]) := by
  rcases s with ⟨p, g⟩
  cases p <;> cases g <;> simp [Mutator.commit]

/-- A commit directly after another commit attempt always raises an ordering
error: the first attempt either found the mutator consumed already or set
`performed` itself. -/
theorem commit_after_commit_consumed (pt pt2 : Bool) (s : MutState) :
    MErr.isConsumed (Mutator.commit pt2 (Mutator.commit pt s).1).2.2 = true := by
  rcases s with ⟨p, g⟩
  cases p <;> cases g <;> cases pt <;> cases pt2 <;>
    simp [Mutator.commit, MErr.isConsumed]

/-- Claim C5: for every sequence of operations on a fresh mutator, `commit`
raises a `MutationAlreadyConsumed` error exactly when the perform or signal
callback previously ran; `perform` raises exactly when the perform callback
previously ran; `signal` raises exactly when the perform callback has not
run or the signal callback already ran; a successful `commit` runs the
perform callback then the signal callback (in that order and nothing else);
and a commit directly following a commit always raises. -/
theorem mutator_single_consumption (ops : List MOp) (pt pt2 : Bool) :
    MErr.isConsumed (Mutator.commit pt (mrun ops).1).2.2 =
      ((mrun ops).2.contains MEvent.performCB ||
        (mrun ops).2.contains MEvent.signalCB) ∧
    MErr.isConsumed (Mutator.perform pt (mrun ops).1).2.2 =
      (mrun ops).2.contains MEvent.performCB ∧
    MErr.isConsumed (Mutator.signal (mrun ops).1).2.2 =
      (!(mrun ops).2.contains MEvent.performCB ||
        (mrun ops).2.contains MEvent.signalCB) ∧
    (Mutator.commit false (mrun ops).1).2.1 =
      (if (mrun ops).1.performed || (mrun ops).1.signaled then ([] : List MEvent)
       else [MEvent.performCB, MEvent.signalCB]) ∧
    MErr.isConsumed (Mutator.commit pt2 (Mutator.commit pt (mrun ops).1).1).2.2 =
      true := by
  obtain ⟨hp, hg⟩ := mrunFrom_flags ops ⟨false, false⟩
  simp only [Bool.false_or] at hp hg
  refine ⟨?_, ?_, ?_, ?_, ?_⟩
  · rw [mrun, commit_consumed_eq, hp, hg]
  · rw [mrun, perform_consumed_eq, hp]
  · rw [mrun, signal_consumed_eq, hp, hg]
  · exact commit_events_eq (mrun ops).1
  · exact commit_after_commit_consumed pt pt2 (mrun ops).1

/-- Once `performed` is set it stays set under any further operations. -/
theorem mrunFrom_performed_mono (ops : List MOp) (g0 : Bool) :
    (mrunFrom ⟨true, g0⟩ ops).1.performed = true := by
  induction ops generalizing g0 with
  | nil => simp [mrunFrom]
  | cons op rest ih =>
      cases op with
      | commit pt => simpa [mrunFrom, Mutator.commit] using ih g0
      | perform pt => simpa [mrunFrom, Mutator.perform] using ih g0
      | signal =>
          cases g0 <;> simp [mrunFrom, Mutator.signal] <;> exact ih true

/-- Claim C10: a fresh mutator whose perform callback throws is consumed by
the failing `commit()`: the flag `performed` is set before the callback runs,
the user exception propagates out of `commit`, the signal callback is never
invoked (`signaled` stays clear), and after any further sequence of
operations both `commit()` and `perform()` raise the already-consumed
error — the mutation is neither rolled back nor retriable. -/
theorem mutator_consumed_on_failing_perform (pt : Bool) (ops : List MOp) :
    (Mutator.commit true ⟨false, false⟩).2.2 = some MErr.userError ∧
    (Mutator.commit true ⟨false, false⟩).1.performed = true ∧
    (Mutator.commit true ⟨false, false⟩).1.signaled = false ∧
    (Mutator.commit true ⟨false, false⟩).2.1 = [MEvent.performCB] ∧
    MErr.isConsumed
      (Mutator.commit pt
        (mrunFrom (Mutator.commit true ⟨false, false⟩).1 ops).1).2.2 = true ∧
    MErr.isConsumed
      (Mutator.perform pt
        (mrunFrom (Mutator.commit true ⟨false, false⟩).1 ops).1).2.2 = true := by
  have hmono := mrunFrom_performed_mono ops false
  have hc : (Mutator.commit true (⟨false, false⟩ : MutState)).1 = ⟨true, false⟩ := by
    simp [Mutator.commit]
  refine ⟨by simp [Mutator.commit], by simp [Mutator.commit],
    by simp [Mutator.commit], by simp [Mutator.commit], ?_, ?_⟩
  · rw [hc, commit_consumed_eq]
    simp [hmono]
  · rw [hc, perform_consumed_eq]
    exact hmono

/-! ## Signal (the class embedded in src/src/_tests/Throttled.test.ts)

`Signal extends ListenerManager implements IWatchable<number>` declares
`protected value: number;` with NO initialiser, so at runtime the field
starts as `undefined`; JavaScript `undefined + 1` is `NaN` and `NaN + 1` is
`NaN`.  A non-integer content (`undefined` or `NaN`) is modelled as `none`,
which is therefore absorbing under the increment. -/

/-- The state of a `Signal`: the counter `value` plus the `ListenerManager`
bits it inherits (`dirty` starts true, `signaled` false). -/
structure SignalState where
  value : Option Int := none
  dirty : Bool := true
  signaled : Bool := false
deriving DecidableEq, Repr

/-- JavaScript `this.value++` on a `number`-declared field that may hold
`undefined` or `NaN`. -/
def jsInc : Option Int → Option Int
  | none => none
  | some n => some (n + 1)

/-- A freshly constructed `new Signal()`. -/
def Signal.init : SignalState := ⟨none, true, false⟩

/-- Source `Signal.get`: `checkNotDispatchingDirty()` (its guard cannot fire at top
level, outside any dirty dispatch), clear `dirty`, return the value. -/
def Signal.get (s : SignalState) : Option Int × SignalState :=
  (s.value, { s with dirty := false })

/-- Source `Signal.markDirty`: a no-op when `dirty` is already set; otherwise
increments the counter and calls the dirty listeners (the guard inside
`callDirtyListeners` is clear, so the loop fires, setting `dirty` and
clearing `signaled`).  The boolean reports whether the broadcast fired. -/
def Signal.markDirty (s : SignalState) : SignalState × Bool :=
  if s.dirty then (s, false)
  else ({ s with value := jsInc s.value, dirty := true, signaled := false }, true)

/-- Source `Signal.markChanged`: `this.callChangeListeners()`. -/
def Signal.markChanged (s : SignalState) : SignalState × Bool :=
  if s.signaled then (s, false) else ({ s with signaled := true }, true)

/-- Source `Signal.isDirty`. -/
def Signal.isDirty (s : SignalState) : Bool := s.dirty

/-- Claim C7 (evaluating the code at the failing input): on a freshly
constructed `Signal`, `get()` returns `undefined` — not an integer — because
the source never initialises `value`; after that `get` has cleared `dirty`,
`markDirty()` does fire a dirty broadcast but its `this.value++` turns the
`undefined` counter into `NaN`, so the next `get()` still returns no
integer.  The claim (and the class's own documentation) describe an
integer counter, which the code contradicts. -/
theorem signal_counter_never_an_integer :
    (Signal.get Signal.init).1 = none ∧
    (Signal.markDirty (Signal.get Signal.init).2).2 = true ∧
    (Signal.markDirty (Signal.get Signal.init).2).1.value = none ∧
    (Signal.get (Signal.markDirty (Signal.get Signal.init).2).1).1 = none := by
  decide

/-! ## Throttled.whenDirty (src/src/Throttled.ts)

`Throttled` overrides `Derived.whenDirty`.  Its state adds the throttle
epoch `this.throttle` (an object `{type, signal?, timeoutID}` or
`undefined`), the flag `activeIndicator` (initialised `true` and never
assigned anywhere in the class), and the two auxiliary `Signal`s.  The
subscription of the throttled value to its single source is the `subDirty` /
`subChange` pair; `setTimeout` and the listener loops are recorded as
events. -/

/-- The two kinds of throttle epoch / pending signal. -/
inductive TSignal where
  | dirty
  | change
deriving DecidableEq, Repr

/-- The `this.throttle` object: its `type` and optional pending `signal`
(the `timeoutID` is represented by the `scheduleTimer` event at creation). -/
structure ThrottleEpoch where
  type : TSignal
  signal : Option TSignal := none
deriving DecidableEq, Repr

/-- Events observable while `Throttled.whenDirty` runs. -/
inductive TEvent where
  | scheduleTimer
  | dirtyDownstream
  | changeDownstream
  | startSignalDirty
deriving DecidableEq, Repr

/-- The state of a `Throttled` value relevant to its dirty-receipt protocol:
its own registry bits, its subscriptions to the source, the epoch, the
`activeIndicator` flag and the `throttleStartSignal` / `throttleEndSignal`
counters. -/
structure ThrottledState where
  dirty : Bool
  signaled : Bool
  subDirty : Bool
  subChange : Bool
  throttle : Option ThrottleEpoch
  activeIndicator : Bool
  throttleStartSignal : SignalState
  throttleEndSignal : SignalState
deriving DecidableEq, Repr

/-- Source `Derived.unsubDirtyDependencies` as inherited by `Throttled`: a no-op
when the value is already `dirty`; otherwise drops the dirty subscriptions
of all dependencies (here: the single source). -/
def Throttled.unsubDirtyDependencies (s : ThrottledState) : ThrottledState :=
  if s.dirty then s else { s with subDirty := false }

/-- The throttled value's own `callDirtyListeners` (from `ListenerManager`):
the downstream dirty broadcast, guarded by its own `dirty` bit. -/
def Throttled.callDirtyListeners (s : ThrottledState) :
    ThrottledState × List TEvent :=
  if s.dirty then (s, [])
  else ({ s with dirty := true, signaled := false }, [TEvent.dirtyDownstream])

/-- Source `Throttled.whenDirty`, the override run when the source broadcasts
dirty: clear `signaled`; if an epoch is active, call
`unsubDirtyDependencies` and, when no signal is pending yet, record
`signal = "dirty"` and mark `throttleStartSignal` dirty; if no epoch is
active, unsubscribe only when `activeIndicator` is false, start a
dirty-typed epoch with a `period` timer, and call the downstream dirty
listeners. -/
def Throttled.whenDirty (s0 : ThrottledState) : ThrottledState × List TEvent :=
  let s := { s0 with signaled := false }
  match s.throttle with
  | some ep =>
      let s := Throttled.unsubDirtyDependencies s
      match ep.signal with
      | none =>
          let r := Signal.markDirty s.throttleStartSignal
          let ep2 : ThrottleEpoch := ⟨ep.type, some TSignal.dirty⟩
          ({ s with throttle := some ep2, throttleStartSignal := r.1 },
           if r.2 then [TEvent.startSignalDirty] else [])
      | some _ => (s, [])
  | none =>
      let s := if !s.activeIndicator then Throttled.unsubDirtyDependencies s else s
      let s := { s with throttle := some ⟨TSignal.dirty, none⟩ }
      let r := Throttled.callDirtyListeners s
      (r.1, TEvent.scheduleTimer :: r.2)

/-- A throttled value right after a read, with no epoch active: clean,
subscribed to its source, `activeIndicator` at its initial (and only ever)
value `true`, both auxiliary signals fresh. -/
def throttledAfterRead : ThrottledState :=
  ⟨false, false, true, true, none, true, Signal.init, Signal.init⟩

/-- The same value during a dirty-typed epoch with no pending signal, not
yet re-read (so still marked dirty). -/
def throttledDuringEpoch : ThrottledState :=
  { throttledAfterRead with throttle := some ⟨TSignal.dirty, none⟩, dirty := true }

/-- Claim C8 counterexample: delivering a source dirty event to a throttled
value with no active epoch (the state right after a read) starts a
dirty-typed epoch, schedules the period timer and broadcasts dirty
downstream — but does NOT unsubscribe from the dependency's dirty events:
the unsubscription is guarded by `!this.activeIndicator`, and
`activeIndicator` is initialised `true` and never assigned, so the
subscription survives, contradicting the claim. -/
theorem throttled_whenDirty_keeps_dirty_subscription :
    (Throttled.whenDirty throttledAfterRead).1.subDirty = true ∧
    (Throttled.whenDirty throttledAfterRead).1.throttle =
      some ⟨TSignal.dirty, none⟩ ∧
    (Throttled.whenDirty throttledAfterRead).2 =
      [TEvent.scheduleTimer, TEvent.dirtyDownstream] := by
  decide

/-- Claim C8 (amended): on receipt of a source dirty event, when no epoch is
active the throttled value starts a dirty-typed epoch, schedules the period
timer and broadcasts dirty downstream (when not itself already dirty), but
RETAINS its dependency dirty subscriptions (it would unsubscribe only if the
always-true `activeIndicator` flag were false); when an epoch is active with
no pending signal it records `pending = dirty`, unsubscribes from dependency
dirty events (skipped when the value is still marked dirty), marks
`throttle_start` dirty (broadcasting that signal's dirty exactly when the
signal was not already dirty), and neither broadcasts dirty downstream nor
schedules a timer. -/
theorem throttled_dirty_receipt_protocol (s : ThrottledState) :
    (s.throttle = none →
      (Throttled.whenDirty s).1.throttle = some ⟨TSignal.dirty, none⟩ ∧
      (Throttled.whenDirty s).2 =
        TEvent.scheduleTimer :: (if s.dirty then [] else [TEvent.dirtyDownstream]) ∧
      (Throttled.whenDirty s).1.subDirty =
        (if s.activeIndicator then s.subDirty
         else if s.dirty then s.subDirty else false)) ∧
    (∀ t, s.throttle = some ⟨t, none⟩ →
      (Throttled.whenDirty s).1.throttle = some ⟨t, some TSignal.dirty⟩ ∧
      (Throttled.whenDirty s).1.subDirty =
        (if s.dirty then s.subDirty else false) ∧
      (Throttled.whenDirty s).2.contains TEvent.dirtyDownstream = false ∧
      (Throttled.whenDirty s).2.contains TEvent.scheduleTimer = false ∧
      (Throttled.whenDirty s).1.throttleStartSignal.dirty = true ∧
      (Throttled.whenDirty s).2.contains TEvent.startSignalDirty =
        !s.throttleStartSignal.dirty) := by
  constructor
  · intro h
    rcases s with ⟨d, g, sd, sc, th, ai, ss, se⟩
    subst h
    cases d <;> cases ai <;>
      simp [Throttled.whenDirty, Throttled.unsubDirtyDependencies,
        Throttled.callDirtyListeners]
  · intro t h
    rcases s with ⟨d, g, sd, sc, th, ai, ss, se⟩
    subst h
    cases d <;> cases hs : ss.dirty <;>
      simp [Throttled.whenDirty, Throttled.unsubDirtyDependencies,
        Signal.markDirty, hs]

/-- Witness for the amended claim C8: both hypotheses are discharged at the
two concrete states above. -/
theorem throttled_dirty_receipt_protocol_witness :
    (Throttled.whenDirty throttledAfterRead).1.throttle =
      some ⟨TSignal.dirty, none⟩ ∧
    (Throttled.whenDirty throttledDuringEpoch).1.throttle =
      some ⟨TSignal.dirty, some TSignal.dirty⟩ :=
  ⟨((throttled_dirty_receipt_protocol throttledAfterRead).1 rfl).1,
   ((throttled_dirty_receipt_protocol throttledDuringEpoch).2 TSignal.dirty rfl).1⟩

/-! ## Derived values over plain fields (src/unnamed/part_009 + PlainField.ts)

A system of `n` integer `PlainField`s (default equality, JavaScript `==` on
numbers) with one `Derived` value computed from them.  Compute functions are
embedded as pure functions of the dependency values, watching every field in
index order — the spec's stated precondition that `watch` calls occur in the
same order on pure re-evaluation.  A dependency record mirrors `IDependency`
(`watchable`, `value`, and the two optional unsubscribe handles as liveness
booleans); the derived value's `dirtyListener`/`changeListener` sit in a
field's weak listener set exactly when some dependency record for that field
holds the corresponding live handle. -/

/-- Source `IDependency`: the watched field, the value observed at registration,
and whether the dirty/change subscriptions are live (`unsubDirty?` /
`unsubChange?` being set in the source). -/
structure Dependency (n : ℕ) where
  watchable : Fin n
  value : Int
  unsubDirty : Bool
  unsubChange : Bool
deriving DecidableEq, Repr

/-- The state of a `Derived` value: cached `value`, the `ListenerManager`
bits, `initialized`, `computationID` and the ordered dependency list. -/
structure DerivedState (n : ℕ) where
  value : Int
  dirty : Bool
  signaled : Bool
  callingDirtyListeners : Bool
  initialized : Bool
  computationID : ℕ
  dependencies : List (Dependency n)
deriving DecidableEq, Repr

/-- The whole system: `n` plain fields and the derived value. -/
structure SysState (n : ℕ) where
  fields : Fin n → FieldState Int
  derived : DerivedState n

/-- Events observable while system operations run: a field's dirty/change
listener loop firing, an assignment to a field, and the derived value's own
dirty/change listener loop firing (what the derived value's downstream
subscribers would observe). -/
inductive SEvent (n : ℕ) where
  | fieldDirty (i : Fin n)
  | fieldChange (i : Fin n)
  | fieldAssign (i : Fin n)
  | derivedDirty
  | derivedChange
deriving DecidableEq, Repr

/-- Replace one field's state. -/
def SysState.setField (s : SysState n) (i : Fin n) (f : FieldState Int) :
    SysState n :=
  { s with fields := Function.update s.fields i f }

/-- Whether the derived value's `dirtyListener` is in field `i`'s dirty
listener set: some dependency record on `i` holds a live dirty handle. -/
def Derived.subscribedDirty (deps : List (Dependency n)) (i : Fin n) : Bool :=
  deps.any fun dep => decide (dep.watchable = i) && dep.unsubDirty

/-- Whether the derived value's `changeListener` is in field `i`'s change
listener set. -/
def Derived.subscribedChange (deps : List (Dependency n)) (i : Fin n) : Bool :=
  deps.any fun dep => decide (dep.watchable = i) && dep.unsubChange

/-- Source `Derived.unsubDirtyDependencies`: a no-op when already `dirty`,
otherwise drops the dirty handles of all dependencies. -/
def Derived.unsubDirtyDependencies (d : DerivedState n) : DerivedState n :=
  if d.dirty then d
  else { d with dependencies := d.dependencies.map (fun dep => { dep with unsubDirty := false }) }

/-- Source `Derived.unsubChangeDependencies`: a no-op when already `signaled`,
otherwise drops the change handles of all dependencies. -/
def Derived.unsubChangeDependencies (d : DerivedState n) : DerivedState n :=
  if d.signaled then d
  else { d with dependencies := d.dependencies.map (fun dep => { dep with unsubChange := false }) }

/-- The derived value's own `callDirtyListeners` (inherited from
`ListenerManager`); the boolean reports whether the loop fired. -/
def Derived.callDirtyListeners (d : DerivedState n) : DerivedState n × Bool :=
  if d.dirty then (d, false)
  else
    let d1 := { d with dirty := true, signaled := false, callingDirtyListeners := true }
    ({ d1 with callingDirtyListeners := false }, true)

/-- The derived value's own `callChangeListeners`. -/
def Derived.callChangeListeners (d : DerivedState n) : DerivedState n × Bool :=
  if d.signaled then (d, false) else ({ d with signaled := true }, true)

/-- Source `Derived.whenDirty`: on a dependency's dirty event, unsubscribe from all
dependency dirty events (guarded by own `dirty`), then broadcast dirty. -/
def Derived.whenDirty (d : DerivedState n) : DerivedState n × Bool :=
  Derived.callDirtyListeners (Derived.unsubDirtyDependencies d)

/-- Source `Derived.whenChange`: on a dependency's change event, unsubscribe from
dependency change events when still `dirty`, then broadcast change. -/
def Derived.whenChange (d : DerivedState n) : DerivedState n × Bool :=
  Derived.callChangeListeners
    (if d.dirty then Derived.unsubChangeDependencies d else d)

/-- A field's `callDirtyListeners` with the derived value as potential weak
subscriber: guard on the field's `dirty`, set `dirty`, clear `signaled`, and
run the listener loop (the derived value's `whenDirty` when subscribed) with
`callingDirtyListeners` set for its duration. -/
def fieldCallDirtyListeners (i : Fin n) (s : SysState n) :
    SysState n × List (SEvent n) :=
  let f := s.fields i
  if f.dirty then (s, [])
  else
    let s1 := s.setField i { f with dirty := true, signaled := false, callingDirtyListeners := true }
    let r := if Derived.subscribedDirty s1.derived.dependencies i
             then Derived.whenDirty s1.derived else (s1.derived, false)
    let s2 := { s1 with derived := r.1 }
    let s3 := s2.setField i { s2.fields i with callingDirtyListeners := false }
    (s3, SEvent.fieldDirty i :: (if r.2 then [SEvent.derivedDirty] else []))

/-- A field's `callChangeListeners` with the derived value as potential weak
subscriber. -/
def fieldCallChangeListeners (i : Fin n) (s : SysState n) :
    SysState n × List (SEvent n) :=
  let f := s.fields i
  if f.signaled then (s, [])
  else
    let s1 := s.setField i { f with signaled := true }
    let r := if Derived.subscribedChange s1.derived.dependencies i
             then Derived.whenChange s1.derived else (s1.derived, false)
    ({ s1 with derived := r.1 },
     SEvent.fieldChange i :: (if r.2 then [SEvent.derivedChange] else []))

/-- The successful branch of `PlainField.get` on field `i`: clear its
`dirty` and return its value. -/
def fieldRead (i : Fin n) (s : SysState n) : Int × SysState n :=
  ((s.fields i).value, s.setField i { s.fields i with dirty := false })

/-- Source `PlainField.get` on field `i` including `checkNotDispatchingDirty`. -/
def sysFieldGet (i : Fin n) (s : SysState n) : Except WErr (Int × SysState n) :=
  if (s.fields i).callingDirtyListeners then
    Except.error WErr.readDuringDirtyDispatch
  else Except.ok (fieldRead i s)

/-- The value a successful `sysFieldGet` returns (`none` when it throws). -/
def sysFieldGetValue (i : Fin n) (s : SysState n) : Option Int :=
  match sysFieldGet i s with
  | Except.ok (v, _) => some v
  | Except.error _ => none

/-- The perform phase of `PlainField.set(v)` on field `i` of the system:
skip when JavaScript `==` accepts the values, otherwise call the dirty
listeners and then assign. -/
def sysPerformSet (i : Fin n) (v : Int) (s : SysState n) :
    SysState n × List (SEvent n) :=
  if (s.fields i).value == v then (s, [])
  else
    let rd := fieldCallDirtyListeners i s
    (rd.1.setField i { rd.1.fields i with value := v },
     rd.2 ++ [SEvent.fieldAssign i])

/-- Source `field.set(v).commit()` on field `i` of the system: the perform phase
followed by the signal phase (the field's `callChangeListeners`). -/
def sysCommitSet (i : Fin n) (v : Int) (s : SysState n) :
    SysState n × List (SEvent n) :=
  let r1 := sysPerformSet i v s
  let r2 := fieldCallChangeListeners i r1.1
  (r2.1, r1.2 ++ r2.2)

/-- Source `Derived.createDependency`: a fresh record with live dirty and change
subscriptions. -/
def Derived.createDependency (i : Fin n) (v : Int) : Dependency n :=
  ⟨i, v, true, true⟩

/-- The loop of `Derived.requiresRecompute`: walk the ordered dependency
list, reading each watched field (which clears that field's `dirty`) and
comparing against the recorded value; stop at the first mismatch. -/
def requiresRecomputeAux : List (Dependency n) → SysState n → Bool × SysState n
  | [], s => (false, s)
  | dep :: rest, s =>
      let r := fieldRead dep.watchable s
      if r.1 == dep.value then requiresRecomputeAux rest r.2 else (true, r.2)

/-- Source `Derived.requiresRecompute`: always recompute when never initialised,
otherwise walk the dependencies. -/
def requiresRecompute (s : SysState n) : Bool × SysState n :=
  if !s.derived.initialized then (true, s)
  else requiresRecomputeAux s.derived.dependencies s

/-- The compute run: `watch` every field in index order — each `watch` reads
the field (clearing its `dirty`) and appends a fresh dependency record (the
`computationID`-outdated and already-registered guards cannot trigger here:
there is no nested recomputation and each field is watched once). -/
def watchAllAux : List (Fin n) → SysState n → SysState n
  | [], s => s
  | i :: rest, s =>
      let r := fieldRead i s
      let deps2 := r.2.derived.dependencies ++ [Derived.createDependency i r.1]
      let s2 := { r.2 with derived := { r.2.derived with dependencies := deps2 } }
      watchAllAux rest s2

/-- The fast path of `updateValueIfNecessary`: no value differed, so
re-create every dependency record (fresh subscriptions, same recorded
values) without recomputing. -/
def fastPathResub (s : SysState n) : SysState n :=
  let resub := s.derived.dependencies.map
    (fun dep => Derived.createDependency dep.watchable dep.value)
  { s with derived := { s.derived with dependencies := resub } }

/-- The slow path of `updateValueIfNecessary`: bump `computationID`, drop
the old dependency records (their change handles are unsubscribed; the
dirty handles were already dropped during dirty propagation), run compute
watching every field in order, store the result, set `initialized`. -/
def slowRecompute (c : (Fin n → Int) → Int) (s : SysState n) : SysState n :=
  let d2 := { s.derived with computationID := s.derived.computationID + 1, dependencies := ([] : List (Dependency n)) }
  let s3 := watchAllAux (List.finRange n) { s with derived := d2 }
  let d3 := { s3.derived with value := c (fun i => (s3.fields i).value), initialized := true }
  { s3 with derived := d3 }

/-- Source `Derived.updateValueIfNecessary`: return unless `dirty`; clear `dirty`;
fast path (no recompute) when every dependency's current read equals its
recorded value — re-create all dependency records (fresh subscriptions, same
values); slow path otherwise — bump `computationID`, drop the old records
(the change handles are unsubscribed, the dirty handles were already dropped
during dirty propagation), run compute watching every field, store the
result and set `initialized`. -/
def updateValueIfNecessary (c : (Fin n → Int) → Int) (s : SysState n) :
    SysState n :=
  if !s.derived.dirty then s
  else
    let s1 := { s with derived := { s.derived with dirty := false } }
    let r := requiresRecompute s1
    if !r.1 then fastPathResub r.2 else slowRecompute c r.2

/-- The successful branch of `Derived.get`: update if necessary, return the
cached value. -/
def derivedGet (c : (Fin n → Int) → Int) (s : SysState n) : Int × SysState n :=
  let s1 := updateValueIfNecessary c s
  (s1.derived.value, s1)

/-- Source `Derived.get` including `checkNotDispatchingDirty` on the derived
value's own registry. -/
def sysDerivedGet (c : (Fin n → Int) → Int) (s : SysState n) :
    Except WErr (Int × SysState n) :=
  if s.derived.callingDirtyListeners then
    Except.error WErr.readDuringDirtyDispatch
  else Except.ok (derivedGet c s)

/-- The value a successful `sysDerivedGet` returns. -/
def sysDerivedGetValue (c : (Fin n → Int) → Int) (s : SysState n) : Option Int :=
  match sysDerivedGet c s with
  | Except.ok (v, _) => some v
  | Except.error _ => none

/-- A top-level operation: commit a set on a field, read a field, or read
the derived value. -/
inductive SysOp (n : ℕ) where
  | setF (i : Fin n) (v : Int)
  | readF (i : Fin n)
  | readD
deriving DecidableEq, Repr

/-- One top-level operation (state part). -/
def sysStep (c : (Fin n → Int) → Int) : SysOp n → SysState n → SysState n
  | SysOp.setF i v, s => (sysCommitSet i v s).1
  | SysOp.readF i, s => (fieldRead i s).2
  | SysOp.readD, s => (derivedGet c s).2

/-- Run a sequence of top-level operations. -/
def sysRun (c : (Fin n → Int) → Int) (ops : List (SysOp n)) (s : SysState n) :
    SysState n :=
  ops.foldl (fun s op => sysStep c op s) s

/-- The initial system: each field freshly constructed (`dirty = true`,
`signaled = false`), the derived value never read (cache arbitrary,
`dirty = true`, `initialized = false`, no dependencies). -/
def initSys (init : Fin n → Int) : SysState n :=
  { fields := fun i => { value := init i },
    derived := ⟨0, true, false, false, false, 0, []⟩ }

/-- The canonical dependency list after a recompute: every field in index
order, with recorded values `lv` and uniform subscription flags. -/
def canonDeps (n : ℕ) (lv : Fin n → Int) (bD bC : Bool) : List (Dependency n) :=
  (List.finRange n).map fun i => ⟨i, lv i, bD, bC⟩

/-! ### Basic facts about the system operations -/

theorem fieldRead_fields (i j : Fin n) (s : SysState n) :
    (fieldRead i s).2.fields j =
      (if j = i then { s.fields i with dirty := false } else s.fields j) := by
  by_cases h : j = i <;>
    simp [fieldRead, SysState.setField, Function.update_apply, h]

theorem fieldRead_derived (i : Fin n) (s : SysState n) :
    (fieldRead i s).2.derived = s.derived := rfl

theorem fieldRead_fst (i : Fin n) (s : SysState n) :
    (fieldRead i s).1 = (s.fields i).value := rfl

/-- Effect of `Derived.whenDirty` on the derived state: value, `initialized`
untouched; ends dirty; when it was clean, the dirty handles are dropped and
the broadcast fires. -/
theorem whenDirty_facts (d : DerivedState n) :
    (Derived.whenDirty d).1.value = d.value ∧
    (Derived.whenDirty d).1.initialized = d.initialized ∧
    (Derived.whenDirty d).1.dirty = true ∧
    (Derived.whenDirty d).1.callingDirtyListeners =
      (if d.dirty then d.callingDirtyListeners else false) ∧
    (Derived.whenDirty d).1.dependencies =
      (if d.dirty then d.dependencies
       else d.dependencies.map (fun dep => { dep with unsubDirty := false })) := by
  cases hd : d.dirty <;>
    simp [Derived.whenDirty, Derived.unsubDirtyDependencies,
      Derived.callDirtyListeners, hd]

/-- Effect of `Derived.whenChange` on the derived state: value, `dirty`,
`initialized` untouched; change handles dropped exactly when it was dirty
and not yet signaled. -/
theorem whenChange_facts (d : DerivedState n) :
    (Derived.whenChange d).1.value = d.value ∧
    (Derived.whenChange d).1.initialized = d.initialized ∧
    (Derived.whenChange d).1.dirty = d.dirty ∧
    (Derived.whenChange d).1.callingDirtyListeners = d.callingDirtyListeners ∧
    (Derived.whenChange d).1.dependencies =
      (if d.dirty && !d.signaled then
        d.dependencies.map (fun dep => { dep with unsubChange := false })
       else d.dependencies) := by
  cases hd : d.dirty <;> cases hs : d.signaled <;>
    simp [Derived.whenChange, Derived.unsubChangeDependencies,
      Derived.callChangeListeners, hd, hs]

theorem canonDeps_map_unsubDirty (lv : Fin n → Int) (bD bC : Bool) :
    (canonDeps n lv bD bC).map (fun dep => { dep with unsubDirty := false }) =
      canonDeps n lv false bC := by
  simp [canonDeps, List.map_map, Function.comp]

theorem canonDeps_map_unsubChange (lv : Fin n → Int) (bD bC : Bool) :
    (canonDeps n lv bD bC).map (fun dep => { dep with unsubChange := false }) =
      canonDeps n lv bD false := by
  simp [canonDeps, List.map_map, Function.comp]

theorem canonDeps_map_createDependency (lv : Fin n → Int) (bD bC : Bool) :
    (canonDeps n lv bD bC).map
      (fun dep => Derived.createDependency dep.watchable dep.value) =
      canonDeps n lv true true := by
  simp [canonDeps, List.map_map, Function.comp, Derived.createDependency]

theorem canonDeps_mem_of (lv : Fin n → Int) (bD bC : Bool) (i : Fin n) :
    (⟨i, lv i, bD, bC⟩ : Dependency n) ∈ canonDeps n lv bD bC := by
  simp only [canonDeps, List.mem_map]
  exact ⟨i, List.mem_finRange i, rfl⟩

theorem subscribedDirty_canon (lv : Fin n → Int) (bD bC : Bool) (i : Fin n) :
    Derived.subscribedDirty (canonDeps n lv bD bC) i = bD := by
  cases bD
  · simp [Derived.subscribedDirty, canonDeps, List.any_map, Function.comp]
  · simp only [Derived.subscribedDirty]
    rw [List.any_eq_true]
    exact ⟨⟨i, lv i, true, bC⟩, canonDeps_mem_of lv true bC i, by simp⟩

theorem subscribedChange_canon (lv : Fin n → Int) (bD bC : Bool) (i : Fin n) :
    Derived.subscribedChange (canonDeps n lv bD bC) i = bC := by
  cases bC
  · simp [Derived.subscribedChange, canonDeps, List.any_map, Function.comp]
  · simp only [Derived.subscribedChange]
    rw [List.any_eq_true]
    exact ⟨⟨i, lv i, bD, true⟩, canonDeps_mem_of lv bD true i, by simp⟩

/-- Effect of the `requiresRecompute` walk: the derived state and all field
values are untouched, field `dirty` bits are only ever cleared, and when the
walk reports no recompute needed, every walked dependency's recorded value
matches the field and every walked field ends with `dirty` clear. -/
theorem requiresRecomputeAux_facts (L : List (Dependency n)) (s : SysState n) :
    (requiresRecomputeAux L s).2.derived = s.derived ∧
    (∀ j, ((requiresRecomputeAux L s).2.fields j).value = (s.fields j).value) ∧
    (∀ j, (s.fields j).dirty = false →
      ((requiresRecomputeAux L s).2.fields j).dirty = false) ∧
    ((requiresRecomputeAux L s).1 = false →
      (∀ dep ∈ L, dep.value = (s.fields dep.watchable).value) ∧
      (∀ dep ∈ L,
        ((requiresRecomputeAux L s).2.fields dep.watchable).dirty = false)) := by
  induction L generalizing s with
  | nil => simp [requiresRecomputeAux]
  | cons dep rest ih =>
      cases hb : (s.fields dep.watchable).value == dep.value
      · have hstep : requiresRecomputeAux (dep :: rest) s =
            (true, (fieldRead dep.watchable s).2) := by
          simp [requiresRecomputeAux, fieldRead_fst, hb]
        rw [hstep]
        refine ⟨fieldRead_derived _ _, ?_, ?_, by simp⟩
        · intro j
          rw [fieldRead_fields]
          split <;> simp_all
        · intro j hj
          rw [fieldRead_fields]
          split <;> simp_all
      · obtain ⟨ihd, ihv, ihm, ihf⟩ := ih (fieldRead dep.watchable s).2
        have hval : ∀ j, ((fieldRead dep.watchable s).2.fields j).value =
            (s.fields j).value := by
          intro j
          rw [fieldRead_fields]
          split <;> simp_all
        have hstep : requiresRecomputeAux (dep :: rest) s =
            requiresRecomputeAux rest (fieldRead dep.watchable s).2 := by
          simp [requiresRecomputeAux, fieldRead_fst, hb]
        rw [hstep]
        refine ⟨by rw [ihd, fieldRead_derived], ?_, ?_, ?_⟩
        · intro j
          rw [ihv j, hval j]
        · intro j hj
          apply ihm j
          rw [fieldRead_fields]
          split <;> simp_all
        · intro hfalse
          obtain ⟨hv1, hv2⟩ := ihf hfalse
          constructor
          · intro d hd
            rcases List.mem_cons.mp hd with hd | hd
            · subst hd
              exact (beq_iff_eq.mp hb).symm
            · rw [hv1 d hd, hval d.watchable]
          · intro d hd
            rcases List.mem_cons.mp hd with hd | hd
            · subst hd
              apply ihm
              rw [fieldRead_fields]
              simp
            · exact hv2 d hd

/-- Effect of the compute/watch loop: dependency records for the walked
fields (with their current values) are appended in order, field values are
untouched, field `dirty` bits are only cleared, and every walked field ends
with `dirty` clear. -/
theorem watchAllAux_facts (L : List (Fin n)) (s : SysState n) :
    (watchAllAux L s).derived =
      { s.derived with
          dependencies :=
            s.derived.dependencies ++
              L.map (fun i => Derived.createDependency i ((s.fields i).value)) } ∧
    (∀ j, ((watchAllAux L s).fields j).value = (s.fields j).value) ∧
    (∀ j, (s.fields j).dirty = false →
      ((watchAllAux L s).fields j).dirty = false) ∧
    (∀ j ∈ L, ((watchAllAux L s).fields j).dirty = false) := by
  induction L generalizing s with
  | nil => simp [watchAllAux]
  | cons i rest ih =>
      have hread : ∀ j, ((fieldRead i s).2.fields j).value = (s.fields j).value := by
        intro j
        rw [fieldRead_fields]
        split <;> simp_all
      set r : Int × SysState n := fieldRead i s with hr
      set d2 : DerivedState n := { r.2.derived with
        dependencies := r.2.derived.dependencies ++ [Derived.createDependency i r.1] } with hd2
      set s2 : SysState n := { r.2 with derived := d2 } with hs2
      have hstep : watchAllAux (i :: rest) s = watchAllAux rest s2 := by
        rw [watchAllAux]
      obtain ⟨ihd, ihv, ihm, ihf⟩ := ih s2
      have hs2fields : ∀ j, s2.fields j =
          (if j = i then { s.fields i with dirty := false } else s.fields j) := by
        intro j
        rw [hs2, hr]
        exact fieldRead_fields i j s
      rw [hstep]
      refine ⟨?_, ?_, ?_, ?_⟩
      · have hmap : List.map (fun j => Derived.createDependency j ((s2.fields j).value)) rest =
            List.map (fun j => Derived.createDependency j ((s.fields j).value)) rest := by
          apply List.map_congr_left
          intro j hj
          show Derived.createDependency j ((s2.fields j).value) =
            Derived.createDependency j ((s.fields j).value)
          rw [hs2fields j]
          split <;> simp_all
        rw [ihd, hmap, hs2, hd2, hr]
        simp [fieldRead_derived, fieldRead_fst, List.append_assoc]
      · intro j
        rw [ihv j, hs2fields j]
        split <;> simp_all
      · intro j hj
        apply ihm j
        rw [hs2fields j]
        split <;> simp_all
      · intro j hj
        rcases List.mem_cons.mp hj with hj | hj
        · subst hj
          apply ihm j
          rw [hs2fields j]
          simp
        · exact ihf j hj

/-- Mapping fresh dependency creation over `List.finRange n` yields the
canonical dependency list. -/
theorem map_createDependency_finRange (g : Fin n → Int) :
    (List.finRange n).map (fun i => Derived.createDependency i (g i)) =
      canonDeps n g true true := rfl

/-- The system invariant maintained by every top-level operation: the
derived value is outside any of its own dirty dispatches; once clean it is
initialised; when initialised its dependency list is the canonical one for
some recorded values `lv` with `value = compute lv`; and when additionally
clean, the dirty subscriptions are live and every recorded value matches
the field's current value, the field being non-dirty (so the next mutation
broadcast reaches the derived value). -/
structure SysInv (c : (Fin n → Int) → Int) (s : SysState n) : Prop where
  callingFalse : s.derived.callingDirtyListeners = false
  initOfClean : s.derived.dirty = false → s.derived.initialized = true
  canon : s.derived.initialized = true →
    ∃ lv bD bC, s.derived.dependencies = canonDeps n lv bD bC ∧
      s.derived.value = c lv ∧
      (s.derived.dirty = false →
        bD = true ∧ ∀ i, lv i = (s.fields i).value ∧ (s.fields i).dirty = false)

theorem sysInv_init (c : (Fin n → Int) → Int) (init : Fin n → Int) :
    SysInv c (initSys init) := by
  refine ⟨rfl, ?_, ?_⟩
  · intro h
    simp [initSys] at h
  · intro h
    simp [initSys] at h

theorem sysInv_fieldRead (c : (Fin n → Int) → Int) (i : Fin n) (s : SysState n)
    (h : SysInv c s) : SysInv c (fieldRead i s).2 := by
  obtain ⟨hcf, hic, hcn⟩ := h
  refine ⟨hcf, hic, ?_⟩
  intro hinit
  obtain ⟨lv, bD, bC, hdeps, hval, hclean⟩ := hcn hinit
  refine ⟨lv, bD, bC, hdeps, hval, ?_⟩
  intro hd
  obtain ⟨hbD, hall⟩ := hclean hd
  refine ⟨hbD, fun j => ?_⟩
  obtain ⟨h1, h2⟩ := hall j
  rw [fieldRead_fields]
  constructor
  · split <;> simp_all
  · split <;> simp_all

/-- All facts needed about the slow path: it recomputes from the current
field values, initialises, builds the canonical dependency list with live
subscriptions, leaves field values and the derived `dirty` bit alone, and
clears every field's `dirty`. -/
theorem slowRecompute_facts (c : (Fin n → Int) → Int) (s : SysState n) :
    (slowRecompute c s).derived.value = c (fun i => (s.fields i).value) ∧
    (slowRecompute c s).derived.initialized = true ∧
    (slowRecompute c s).derived.dirty = s.derived.dirty ∧
    (slowRecompute c s).derived.callingDirtyListeners =
      s.derived.callingDirtyListeners ∧
    (slowRecompute c s).derived.dependencies =
      canonDeps n (fun i => (s.fields i).value) true true ∧
    (∀ j, ((slowRecompute c s).fields j).value = (s.fields j).value) ∧
    (∀ j, ((slowRecompute c s).fields j).dirty = false) := by
  obtain ⟨had, hav, ham, haf⟩ :=
    watchAllAux_facts (List.finRange n)
      { s with derived := { s.derived with
          computationID := s.derived.computationID + 1,
          dependencies := ([] : List (Dependency n)) } }
  refine ⟨?_, rfl, ?_, ?_, ?_, ?_, ?_⟩
  · show c _ = c _
    exact congrArg c (funext fun i => hav i)
  · show (watchAllAux (List.finRange n) _).derived.dirty = s.derived.dirty
    rw [had]
  · show (watchAllAux (List.finRange n) _).derived.callingDirtyListeners =
      s.derived.callingDirtyListeners
    rw [had]
  · show (watchAllAux (List.finRange n) _).derived.dependencies = _
    rw [had]
    simp [map_createDependency_finRange]
  · intro j
    exact hav j
  · intro j
    exact haf j (List.mem_finRange j)

theorem fastPathResub_facts (s : SysState n) :
    (fastPathResub s).derived.value = s.derived.value ∧
    (fastPathResub s).derived.initialized = s.derived.initialized ∧
    (fastPathResub s).derived.dirty = s.derived.dirty ∧
    (fastPathResub s).derived.callingDirtyListeners =
      s.derived.callingDirtyListeners ∧
    (fastPathResub s).derived.dependencies =
      s.derived.dependencies.map
        (fun dep => Derived.createDependency dep.watchable dep.value) ∧
    (fastPathResub s).fields = s.fields :=
  ⟨rfl, rfl, rfl, rfl, rfl, rfl⟩

theorem updateValue_not_dirty (c : (Fin n → Int) → Int) (s : SysState n)
    (h : s.derived.dirty = false) : updateValueIfNecessary c s = s := by
  simp [updateValueIfNecessary, h]

theorem updateValue_cases (c : (Fin n → Int) → Int) (s : SysState n)
    (hdirty : s.derived.dirty = true) :
    updateValueIfNecessary c s =
      (if (requiresRecompute
            { s with derived := { s.derived with dirty := false } }).1 then
        slowRecompute c (requiresRecompute
          { s with derived := { s.derived with dirty := false } }).2
       else fastPathResub (requiresRecompute
          { s with derived := { s.derived with dirty := false } }).2) := by
  cases hr : (requiresRecompute
      { s with derived := { s.derived with dirty := false } }).1 <;>
    simp [updateValueIfNecessary, hdirty, hr]

theorem sysInv_updateValue (c : (Fin n → Int) → Int) (s : SysState n)
    (h : SysInv c s) : SysInv c (updateValueIfNecessary c s) := by
  obtain ⟨hcf, hic, hcn⟩ := h
  by_cases hd : s.derived.dirty = true
  case neg =>
    rw [updateValue_not_dirty c s (by simpa using hd)]
    exact ⟨hcf, hic, hcn⟩
  case pos =>
    rw [updateValue_cases c s hd]
    by_cases hi : s.derived.initialized = true
    · obtain ⟨lv, bD, bC, hdeps, hval, hclean⟩ := hcn hi
      have hreq : requiresRecompute
          { s with derived := { s.derived with dirty := false } } =
          requiresRecomputeAux (canonDeps n lv bD bC)
            { s with derived := { s.derived with dirty := false } } := by
        simp [requiresRecompute, hi, hdeps]
      obtain ⟨had, hav, ham, haf⟩ := requiresRecomputeAux_facts
        (canonDeps n lv bD bC)
        { s with derived := { s.derived with dirty := false } }
      rw [hreq]
      cases hfast : (requiresRecomputeAux (canonDeps n lv bD bC)
          { s with derived := { s.derived with dirty := false } }).1
      · simp only [hfast, if_false, Bool.false_eq_true]
        obtain ⟨hmatch, hdirtyclear⟩ := haf hfast
        obtain ⟨f1, f2, f3, f4, f5, f6⟩ := fastPathResub_facts
          (requiresRecomputeAux (canonDeps n lv bD bC)
            { s with derived := { s.derived with dirty := false } }).2
        refine ⟨?_, ?_, ?_⟩
        · rw [f4, had]
          exact hcf
        · intro _
          rw [f2, had]
          exact hi
        · intro _
          refine ⟨lv, true, true, ?_, ?_, ?_⟩
          · rw [f5, had, hdeps, canonDeps_map_createDependency]
          · rw [f1, had]
            exact hval
          · intro _
            refine ⟨rfl, fun j => ?_⟩
            constructor
            · have h1 := hmatch ⟨j, lv j, bD, bC⟩ (canonDeps_mem_of lv bD bC j)
              have h2 := congrArg (fun g => (g j).value) f6
              simp only at h2
              rw [h2, hav j]
              exact h1
            · have h2 := congrArg (fun g => (g j).dirty) f6
              simp only at h2
              rw [h2]
              exact hdirtyclear ⟨j, lv j, bD, bC⟩ (canonDeps_mem_of lv bD bC j)
      · simp only [hfast, if_true]
        obtain ⟨g1, g2, g3, g4, g5, g6, g7⟩ := slowRecompute_facts c
          (requiresRecomputeAux (canonDeps n lv bD bC)
            { s with derived := { s.derived with dirty := false } }).2
        refine ⟨?_, ?_, ?_⟩
        · rw [g4, had]
          exact hcf
        · intro _
          exact g2
        · intro _
          refine ⟨fun i => ((requiresRecomputeAux (canonDeps n lv bD bC)
              { s with derived := { s.derived with dirty := false } }).2.fields i).value,
              true, true, g5, g1, ?_⟩
          intro _
          exact ⟨rfl, fun j => ⟨(g6 j).symm, g7 j⟩⟩
    · have hreq : requiresRecompute
          { s with derived := { s.derived with dirty := false } } =
          (true, { s with derived := { s.derived with dirty := false } }) := by
        simp [requiresRecompute]
        intro hcontra
        exact absurd hcontra hi
      rw [hreq]
      simp only [if_true]
      obtain ⟨g1, g2, g3, g4, g5, g6, g7⟩ := slowRecompute_facts c
        { s with derived := { s.derived with dirty := false } }
      refine ⟨?_, ?_, ?_⟩
      · rw [g4]
        exact hcf
      · intro _
        exact g2
      · intro _
        refine ⟨fun i => (({ s with derived := { s.derived with dirty := false } } :
            SysState n).fields i).value, true, true, g5, g1, ?_⟩
        intro _
        exact ⟨rfl, fun j => ⟨(g6 j).symm, g7 j⟩⟩

theorem fieldCallDirtyListeners_skip (i : Fin n) (s : SysState n)
    (h : (s.fields i).dirty = true) :
    fieldCallDirtyListeners i s = (s, []) := by
  simp [fieldCallDirtyListeners, h]

theorem fieldCallDirtyListeners_fire (i : Fin n) (s : SysState n)
    (h : (s.fields i).dirty = false) :
    (fieldCallDirtyListeners i s).1.fields =
      Function.update s.fields i
        { s.fields i with dirty := true, signaled := false, callingDirtyListeners := false } ∧
    (fieldCallDirtyListeners i s).1.derived =
      (if Derived.subscribedDirty s.derived.dependencies i then
        (Derived.whenDirty s.derived).1 else s.derived) := by
  cases hsub : Derived.subscribedDirty s.derived.dependencies i <;>
    simp [fieldCallDirtyListeners, h, hsub, SysState.setField,
      Function.update_idem, Function.update_same]

theorem fieldCallChangeListeners_skip (i : Fin n) (s : SysState n)
    (h : (s.fields i).signaled = true) :
    fieldCallChangeListeners i s = (s, []) := by
  simp [fieldCallChangeListeners, h]

theorem fieldCallChangeListeners_fire (i : Fin n) (s : SysState n)
    (h : (s.fields i).signaled = false) :
    (fieldCallChangeListeners i s).1.fields =
      Function.update s.fields i { s.fields i with signaled := true } ∧
    (fieldCallChangeListeners i s).1.derived =
      (if Derived.subscribedChange s.derived.dependencies i then
        (Derived.whenChange s.derived).1 else s.derived) := by
  cases hsub : Derived.subscribedChange s.derived.dependencies i <;>
    simp [fieldCallChangeListeners, h, hsub, SysState.setField]

/-- A field's change broadcast preserves the system invariant: it touches
only `signaled` bits and (through `whenChange`) change handles. -/
theorem sysInv_fieldCallChange (c : (Fin n → Int) → Int) (i : Fin n)
    (s : SysState n) (h : SysInv c s) :
    SysInv c (fieldCallChangeListeners i s).1 := by
  obtain ⟨hcf, hic, hcn⟩ := h
  cases hsig : (s.fields i).signaled
  case true =>
    rw [fieldCallChangeListeners_skip i s hsig]
    exact ⟨hcf, hic, hcn⟩
  case false =>
    obtain ⟨hfields, hderived⟩ := fieldCallChangeListeners_fire i s hsig
    obtain ⟨w1, w2, w3, w4, w5⟩ := whenChange_facts s.derived
    have hdv : (fieldCallChangeListeners i s).1.derived.value = s.derived.value := by
      rw [hderived]; split <;> simp [w1]
    have hdd : (fieldCallChangeListeners i s).1.derived.dirty = s.derived.dirty := by
      rw [hderived]; split <;> simp [w3]
    have hdi : (fieldCallChangeListeners i s).1.derived.initialized =
        s.derived.initialized := by
      rw [hderived]; split <;> simp [w2]
    have hdc : (fieldCallChangeListeners i s).1.derived.callingDirtyListeners =
        s.derived.callingDirtyListeners := by
      rw [hderived]; split <;> simp [w4]
    have hff : ∀ j, ((fieldCallChangeListeners i s).1.fields j).value =
        (s.fields j).value ∧
        ((fieldCallChangeListeners i s).1.fields j).dirty = (s.fields j).dirty := by
      intro j
      rw [hfields, Function.update_apply]
      split <;> simp_all
    refine ⟨?_, ?_, ?_⟩
    · rw [hdc]; exact hcf
    · rw [hdd, hdi]; exact hic
    · rw [hdi]
      intro hinit
      obtain ⟨lv, bD, bC, hdeps, hval, hclean⟩ := hcn hinit
      have hdeps2 : ∃ bC2, (fieldCallChangeListeners i s).1.derived.dependencies =
          canonDeps n lv bD bC2 := by
        rw [hderived]
        split
        · rw [w5]
          split
          · exact ⟨false, by rw [hdeps, canonDeps_map_unsubChange]⟩
          · exact ⟨bC, hdeps⟩
        · exact ⟨bC, hdeps⟩
      obtain ⟨bC2, hdeps2⟩ := hdeps2
      refine ⟨lv, bD, bC2, hdeps2, by rw [hdv]; exact hval, ?_⟩
      rw [hdd]
      intro hdf
      obtain ⟨hbD, hall⟩ := hclean hdf
      refine ⟨hbD, fun j => ?_⟩
      obtain ⟨h1, h2⟩ := hall j
      obtain ⟨hv, hdj⟩ := hff j
      exact ⟨by rw [hv]; exact h1, by rw [hdj]; exact h2⟩

/-- The perform phase of a field set preserves the system invariant: when
the broadcast reaches a clean derived value it is subscribed (by the
invariant), so it turns dirty before the assignment can invalidate its
recorded values. -/
theorem sysInv_performSet (c : (Fin n → Int) → Int) (i : Fin n) (v : Int)
    (s : SysState n) (h : SysInv c s) : SysInv c (sysPerformSet i v s).1 := by
  obtain ⟨hcf, hic, hcn⟩ := h
  cases hv : (s.fields i).value == v
  case true =>
    have hres : (sysPerformSet i v s).1 = s := by
      simp [sysPerformSet, hv]
    rw [hres]
    exact ⟨hcf, hic, hcn⟩
  case false =>
    have hres : (sysPerformSet i v s).1 =
        (fieldCallDirtyListeners i s).1.setField i
          { (fieldCallDirtyListeners i s).1.fields i with value := v } := by
      simp [sysPerformSet, hv]
    rw [hres]
    cases hfd : (s.fields i).dirty
    case true =>
      have hdd : s.derived.dirty = true := by
        cases hdb : s.derived.dirty
        · obtain ⟨lv, bD, bC, _, _, hclean⟩ := hcn (hic hdb)
          obtain ⟨_, hall⟩ := hclean hdb
          exact absurd (hall i).2 (by rw [hfd]; simp)
        · rfl
      rw [fieldCallDirtyListeners_skip i s hfd]
      refine ⟨hcf, ?_, ?_⟩
      · intro hcontra
        have hc2 : s.derived.dirty = false := hcontra
        rw [hdd] at hc2
        cases hc2
      · intro hinit
        obtain ⟨lv, bD, bC, hdeps, hval, _⟩ := hcn hinit
        refine ⟨lv, bD, bC, hdeps, hval, ?_⟩
        intro hdf
        have hc2 : s.derived.dirty = false := hdf
        rw [hdd] at hc2
        cases hc2
    case false =>
      have hderived := (fieldCallDirtyListeners_fire i s hfd).2
      obtain ⟨w1, w2, w3, w4, w5⟩ := whenDirty_facts s.derived
      have hXd : ((fieldCallDirtyListeners i s).1.setField i
          { (fieldCallDirtyListeners i s).1.fields i with value := v }).derived =
          (if Derived.subscribedDirty s.derived.dependencies i then
            (Derived.whenDirty s.derived).1 else s.derived) := hderived
      cases hdb : s.derived.dirty
      case false =>
        obtain ⟨lv, bD, bC, hdeps, hval, hclean⟩ := hcn (hic hdb)
        obtain ⟨hbD, hall⟩ := hclean hdb
        subst hbD
        have hsub : Derived.subscribedDirty s.derived.dependencies i = true := by
          rw [hdeps]
          exact subscribedDirty_canon lv true bC i
        rw [hsub] at hXd
        simp only [if_true] at hXd
        refine ⟨?_, ?_, ?_⟩
        · rw [hXd, w4, hdb]
          simp
        · intro hcontra
          rw [hXd, w3] at hcontra
          cases hcontra
        · intro _
          refine ⟨lv, false, bC, ?_, ?_, ?_⟩
          · rw [hXd, w5, hdb]
            simp [hdeps, canonDeps_map_unsubDirty]
          · rw [hXd, w1]
            exact hval
          · intro hdf
            rw [hXd, w3] at hdf
            cases hdf
      case true =>
        refine ⟨?_, ?_, ?_⟩
        · rw [hXd]
          split
          · rw [w4, hdb]
            simpa using hcf
          · exact hcf
        · intro hcontra
          rw [hXd] at hcontra
          revert hcontra
          split
          · rw [w3]
            intro hcontra
            cases hcontra
          · rw [hdb]
            intro hcontra
            cases hcontra
        · intro hinit
          have hinit0 : s.derived.initialized = true := by
            rw [hXd] at hinit
            revert hinit
            split
            · rw [w2]
              exact id
            · exact id
          obtain ⟨lv, bD, bC, hdeps, hval, _⟩ := hcn hinit0
          refine ⟨lv, bD, bC, ?_, ?_, ?_⟩
          · rw [hXd]
            split
            · rw [w5, hdb]
              simpa using hdeps
            · exact hdeps
          · rw [hXd]
            split
            · rw [w1]
              exact hval
            · exact hval
          · intro hdf
            rw [hXd] at hdf
            revert hdf
            split
            · rw [w3]
              intro hdf
              cases hdf
            · rw [hdb]
              intro hdf
              cases hdf

/-- A full `set(v).commit()` preserves the system invariant. -/
theorem sysInv_commitSet (c : (Fin n → Int) → Int) (i : Fin n) (v : Int)
    (s : SysState n) (h : SysInv c s) : SysInv c (sysCommitSet i v s).1 := by
  have h2 := sysInv_fieldCallChange c i (sysPerformSet i v s).1
    (sysInv_performSet c i v s h)
  have hres : (sysCommitSet i v s).1 =
      (fieldCallChangeListeners i (sysPerformSet i v s).1).1 := rfl
  rw [hres]
  exact h2

/-- Every top-level operation preserves the system invariant. -/
theorem sysInv_step (c : (Fin n → Int) → Int) (op : SysOp n) (s : SysState n)
    (h : SysInv c s) : SysInv c (sysStep c op s) := by
  cases op with
  | setF i v => exact sysInv_commitSet c i v s h
  | readF i => exact sysInv_fieldRead c i s h
  | readD => exact sysInv_updateValue c s h

/-- The system invariant holds after any sequence of operations. -/
theorem sysInv_run (c : (Fin n → Int) → Int) (ops : List (SysOp n))
    (s : SysState n) (h : SysInv c s) : SysInv c (sysRun c ops s) := by
  induction ops generalizing s with
  | nil => exact h
  | cons op rest ih =>
      have hstep : sysRun c (op :: rest) s = sysRun c rest (sysStep c op s) := rfl
      rw [hstep]
      exact ih (sysStep c op s) (sysInv_step c op s h)

/-- In any state satisfying the invariant, reading the derived value yields
the compute function applied to the current field values. -/
theorem sysInv_get_value (c : (Fin n → Int) → Int) (s : SysState n)
    (h : SysInv c s) :
    (derivedGet c s).1 = c (fun i => (s.fields i).value) := by
  obtain ⟨hcf, hic, hcn⟩ := h
  have hget : (derivedGet c s).1 = (updateValueIfNecessary c s).derived.value := rfl
  rw [hget]
  by_cases hd : s.derived.dirty = true
  · rw [updateValue_cases c s hd]
    by_cases hi : s.derived.initialized = true
    · obtain ⟨lv, bD, bC, hdeps, hval, hclean⟩ := hcn hi
      have hreq : requiresRecompute
          { s with derived := { s.derived with dirty := false } } =
          requiresRecomputeAux (canonDeps n lv bD bC)
            { s with derived := { s.derived with dirty := false } } := by
        simp [requiresRecompute, hi, hdeps]
      obtain ⟨had, hav, ham, haf⟩ := requiresRecomputeAux_facts
        (canonDeps n lv bD bC)
        { s with derived := { s.derived with dirty := false } }
      rw [hreq]
      cases hfast : (requiresRecomputeAux (canonDeps n lv bD bC)
          { s with derived := { s.derived with dirty := false } }).1
      · simp only [hfast, if_false, Bool.false_eq_true]
        obtain ⟨hmatch, _⟩ := haf hfast
        have f1 := (fastPathResub_facts (requiresRecomputeAux (canonDeps n lv bD bC)
          { s with derived := { s.derived with dirty := false } }).2).1
        rw [f1, had]
        have hv2 : s.derived.value = c lv := hval
        rw [show ({ s with derived := { s.derived with dirty := false } } :
            SysState n).derived.value = s.derived.value from rfl, hv2]
        refine congrArg c (funext fun i => ?_)
        exact hmatch ⟨i, lv i, bD, bC⟩ (canonDeps_mem_of lv bD bC i)
      · simp only [hfast, if_true]
        have g1 := (slowRecompute_facts c (requiresRecomputeAux (canonDeps n lv bD bC)
          { s with derived := { s.derived with dirty := false } }).2).1
        rw [g1]
        refine congrArg c (funext fun i => ?_)
        exact hav i
    · have hreq : requiresRecompute
          { s with derived := { s.derived with dirty := false } } =
          (true, { s with derived := { s.derived with dirty := false } }) := by
        simp [requiresRecompute]
        intro hcontra
        exact absurd hcontra hi
      rw [hreq]
      simp only [if_true]
      exact (slowRecompute_facts c
        { s with derived := { s.derived with dirty := false } }).1
  · have hd' : s.derived.dirty = false := by simpa using hd
    rw [updateValue_not_dirty c s hd']
    obtain ⟨lv, bD, bC, hdeps, hval, hclean⟩ := hcn (hic hd')
    obtain ⟨_, hall⟩ := hclean hd'
    rw [hval]
    exact congrArg c (funext fun i => (hall i).1)

/-- Claim C1: Transparency of derived values.  For every compute function
(embedded, per the spec's ordered-purity precondition, as a pure function of
the values watched in index order), any initial field values, and any
sequence of committed field mutations, field reads and derived reads,
reading the derived value succeeds and returns the compute function applied
to the current field values — i.e. `Derived(c).get()` equals `c` with every
`watch(d)` replaced by `d.get()` at the moment of the call. -/
theorem derived_transparency (c : (Fin n → Int) → Int) (init : Fin n → Int)
    (ops : List (SysOp n)) :
    sysDerivedGetValue c (sysRun c ops (initSys init)) =
      some (c (fun i => ((sysRun c ops (initSys init)).fields i).value)) := by
  have hinv := sysInv_run c ops (initSys init) (sysInv_init c init)
  have hval := sysInv_get_value c (sysRun c ops (initSys init)) hinv
  have hcf := hinv.callingFalse
  rw [sysDerivedGetValue, sysDerivedGet]
  rw [hcf]
  simpa using hval

/-! ### Reading during a dirty dispatch (claim C4) -/

/-- The compute function of the two-field scenario: a derived value watching
both fields. -/
def c4compute : (Fin 2 → Int) → Int := fun f => f 0 + f 1

/-- Initial values of the two fields. -/
def c4Init : Fin 2 → Int := fun i => if i = 0 then 1 else 5

/-- The system after one derived read: the derived value caches `1 + 5` and
is subscribed to both fields. -/
def c4Start : SysState 2 := sysRun c4compute [SysOp.readD] (initSys c4Init)

/-- The state in the middle of committing `fields[0].set(2)`: the perform
phase has entered field 0's `callDirtyListeners` (flags set, listener loop
running, `callingDirtyListeners = true`) and the first listener — the
derived value's `whenDirty` — has completed; a second, user-registered
listener now runs and performs reads. -/
def c4Mid : SysState 2 :=
  let s1 := c4Start.setField 0
    { c4Start.fields 0 with dirty := true, signaled := false, callingDirtyListeners := true }
  { s1 with derived := (Derived.whenDirty s1.derived).1 }

/-- Claim C4 counterexample: while field 0's registry is dispatching dirty
(`callingDirtyListeners = true`) and both fields belong to one dependency
graph (the derived value holds dependency records on fields 0 and 1), a
listener's read of field 0 raises `ReadDuringDirtyDispatch`, but its read of
field 1 — a watchable of the same graph — succeeds and returns `5`: the
check in `checkNotDispatchingDirty` is per-registry, not graph-wide, so the
claim's "raises whenever a dirty notification is being dispatched anywhere
in the graph" is false at this input. -/
theorem read_succeeds_during_other_registry_dispatch :
    (c4Mid.fields 0).callingDirtyListeners = true ∧
    c4Mid.derived.dependencies.map (fun dep => dep.watchable) = [0, 1] ∧
    sysFieldGetValue 0 c4Mid = none ∧
    sysFieldGetValue 1 c4Mid = some 5 := by
  decide

/-- Claim C4 (amended): `w.get()` raises `ReadDuringDirtyDispatch` exactly
when `w`'s OWN listener registry is currently dispatching a dirty
notification (`this.callingDirtyListeners`), and succeeds exactly
otherwise — in particular it never raises when no dirty dispatch is in
progress anywhere; a dispatch elsewhere in the graph is only detected when
the read transitively reads the dispatching watchable itself. -/
theorem read_raises_iff_own_registry_dispatching (s : SysState n) (i : Fin n) :
    (sysFieldGet i s = Except.error WErr.readDuringDirtyDispatch ↔
      (s.fields i).callingDirtyListeners = true) ∧
    (sysFieldGet i s = Except.ok (fieldRead i s) ↔
      (s.fields i).callingDirtyListeners = false) := by
  cases h : (s.fields i).callingDirtyListeners <;> simp [sysFieldGet, h]

/-! ### Change without dirty on fresh fields (claim C9) -/

/-- Claim C9 counterexample: a `Field` is a `Derived` wrapping an inner
`PlainField` (here the one-field system with dereferencing compute, the
plain-values-only case).  On a freshly constructed `Field(0)` that was never
read, committing `set(1)` runs the inner field's change broadcast
(`fieldChange`) — but the derived value has no subscriptions yet (it
subscribes only on first read), so no listener registered on the `Field`
itself is invoked: neither `derivedChange` nor `derivedDirty` is dispatched,
contradicting the claim's "invokes the registered change listeners" for
`Field`. -/
theorem fresh_field_commit_fires_no_outer_listener :
    ((sysCommitSet (0 : Fin 1) 1 (initSys fun _ => (0 : Int))).2).contains
        (SEvent.fieldChange 0) = true ∧
    ((sysCommitSet (0 : Fin 1) 1 (initSys fun _ => (0 : Int))).2).contains
        SEvent.derivedChange = false ∧
    ((sysCommitSet (0 : Fin 1) 1 (initSys fun _ => (0 : Int))).2).contains
        SEvent.derivedDirty = false := by
  decide

/-- Claim C9 (amended): for a freshly constructed `PlainField` never read,
committing `set(v)` with `v` not equal to the current value fires the change
listeners but no dirty broadcast — the registry's `dirty` flag starts true
and suppresses it (events: assignment, then change broadcast only).  For a
freshly constructed `Field` never read, the same commit reaches only the
inner field's registry: the inner change broadcast has no subscribers yet,
and no listener registered on the `Field` itself (its outer `Derived`
registry) fires at all. -/
theorem fresh_field_change_without_dirty (equals : α → α → Bool) (init v : α)
    (h1 : equals init v = false) (init0 v0 : Int) (h2 : (init0 == v0) = false) :
    (commitSet equals v ⟨init, true, false, false⟩).2 =
      [WEvent.assign, WEvent.changeBroadcast] ∧
    (sysCommitSet (0 : Fin 1) v0 (initSys fun _ => init0)).2 =
      [SEvent.fieldAssign 0, SEvent.fieldChange 0] := by
  constructor
  · rw [commitSet_eq_false equals v init true false false h1]
    simp
  · simp [sysCommitSet, sysPerformSet, h2, fieldCallDirtyListeners,
      fieldCallChangeListeners, initSys, SysState.setField,
      Derived.subscribedChange, Function.update_apply]

/-- Witness for the amended claim C9, at a fresh `PlainField(0)` receiving
`set(1)` and the fresh one-field `Field(0)` system receiving `set(1)`. -/
theorem fresh_field_change_without_dirty_witness :
    (commitSet (fun a b : Int => a == b) 1 ⟨0, true, false, false⟩).2 =
      [WEvent.assign, WEvent.changeBroadcast] ∧
    (sysCommitSet (0 : Fin 1) 1 (initSys fun _ => (0 : Int))).2 =
      [SEvent.fieldAssign 0, SEvent.fieldChange 0] :=
  fresh_field_change_without_dirty (fun a b : Int => a == b) 0 1 (by decide) 0 1
    (by decide)

end Watchables
